import Mathlib

/-!
Verification of the audio feature engine of `glow_tts_train`
(`src/glow_tts_train/config.py`, class `AudioConfig`).

The Python dataclass and its methods are shallowly embedded.  Conventions:

* machine floats are embedded as exact rationals (`ℚ`) where the code is pure
  field arithmetic (normalization, silence trimming, framing), and as real
  numbers (`ℝ`) where the code is transcendental (`log10`, `10 ** x`, the mel
  scale, the pseudo-inverse);
* numpy arrays are `List`s or Mathlib `Matrix (Fin m) (Fin n)` values;
* fallible code (a Python exception: `assert`, `UnboundLocalError`,
  numpy `ValueError`, librosa `ParameterError`) returns `Option`, `none`
  standing for the raised exception;
* the implicit global numpy random state consumed by `np.random.rand` is made
  explicit: a stream `ℕ → ℝ` of future draws is passed in and the advanced
  stream is returned, exactly as a shallow embedding turns mutable global
  state into state passing.
-/

set_option maxHeartbeats 1000000

namespace GlowTTS

/-- Embedding of the `AudioConfig` dataclass fields (config.py lines 14-37),
with the source's default values.  `float` fields are exact rationals,
`mel_fmax: Optional[float]` is `Option ℚ`. -/
structure AudioConfig where
  filter_length : ℕ := 1024
  hop_length : ℕ := 256
  win_length : ℕ := 1024
  mel_channels : ℕ := 80
  sample_rate : ℕ := 22050
  sample_bytes : ℕ := 2
  channels : ℕ := 1
  mel_fmin : ℚ := 0
  mel_fmax : Option ℚ := some 8000
  ref_level_db : ℚ := 20
  spec_gain : ℚ := 1
  signal_norm : Bool := true
  min_level_db : ℚ := -100
  max_norm : ℚ := 1
  clip_norm : Bool := true
  symmetric_norm : Bool := true
  do_dynamic_range_compression : Bool := true
  convert_db_to_amp : Bool := true
  do_trim_silence : Bool := false
  trim_silence_db : ℚ := 60
  deriving Repr, DecidableEq

/-- The `AudioConfig` built with all defaults, `AudioConfig()`. -/
def defaultConfig : AudioConfig := {}

/-- `np.clip(x, lo, hi)` on a scalar. -/
def npClip {α : Type} [LinearOrder α] (x lo hi : α) : α :=
  min hi (max lo x)

/-- `AudioConfig.normalize` (config.py lines 135-151) on one matrix entry
(the numpy code is elementwise).  Polymorphic over the scalar field so that it
can be run exactly on `ℚ` and composed with the real-valued pipeline on `ℝ`. -/
def normalize {α : Type} [LinearOrderedField α] (cfg : AudioConfig) (mel_db : α) : α :=
  let mel_norm : α :=
    ((mel_db - (cfg.ref_level_db : α)) - (cfg.min_level_db : α)) / (-(cfg.min_level_db : α))
  if cfg.symmetric_norm then
    let m := ((2 * (cfg.max_norm : α)) * mel_norm) - (cfg.max_norm : α)
    if cfg.clip_norm then npClip m (-(cfg.max_norm : α)) (cfg.max_norm : α) else m
  else
    let m := (cfg.max_norm : α) * mel_norm
    if cfg.clip_norm then npClip m 0 (cfg.max_norm : α) else m

/-- The arithmetic done by `AudioConfig.denormalize` (config.py lines 153-174)
when it does not crash: the clipped input is mapped back to decibels and
`ref_level_db` is added. -/
def denormCore {α : Type} [LinearOrderedField α] (cfg : AudioConfig) (mel_db : α) : α :=
  (if cfg.symmetric_norm then
    ((npClip mel_db (-(cfg.max_norm : α)) (cfg.max_norm : α) + (cfg.max_norm : α))
        * (-(cfg.min_level_db : α)) / (2 * (cfg.max_norm : α))) + (cfg.min_level_db : α)
  else
    (npClip mel_db 0 (cfg.max_norm : α) * (-(cfg.min_level_db : α)) / (cfg.max_norm : α))
      + (cfg.min_level_db : α))
  + (cfg.ref_level_db : α)

/-- `AudioConfig.denormalize` (config.py lines 153-174).  In both branches the
local `mel_denorm` is assigned only under `if self.clip_norm:`; when
`clip_norm` is false the following line reads the unassigned local and Python
raises `UnboundLocalError`, embedded as `none`. -/
def denormalize {α : Type} [LinearOrderedField α] (cfg : AudioConfig) (mel_db : α) : Option α :=
  if cfg.clip_norm then some (denormCore cfg mel_db) else none

/-- Configuration used to observe `normalize` before clipping: the defaults
(symmetric, `max_norm = 1`, `min_level_db = -100`, `ref_level_db = 20`)
with `clip_norm` turned off. -/
def noClipCfg : AudioConfig := { clip_norm := false }

/-- Asymmetric variant of `noClipCfg`. -/
def noClipAsymCfg : AudioConfig := { clip_norm := false, symmetric_norm := false }

/-- `AudioConfig.amp_to_db` (config.py lines 93-94) on one entry:
`spec_gain * log10(max(threshold, amp))` with `threshold = 1e-5`.
`np.log10` is embedded as the real base-10 logarithm. -/
noncomputable def amp_to_db (cfg : AudioConfig) (mel_amp : ℝ) (threshold : ℝ := 1e-5) : ℝ :=
  (cfg.spec_gain : ℝ) * Real.logb 10 (max threshold mel_amp)

/-- `AudioConfig.db_to_amp` (config.py lines 96-97) on one entry:
`np.power(power, mel_db / spec_gain)` with `power = 10`, embedded as the real
power function. -/
noncomputable def db_to_amp (cfg : AudioConfig) (mel_db : ℝ) (power : ℝ := 10) : ℝ :=
  power ^ (mel_db / (cfg.spec_gain : ℝ))

/-- Slaney-style Hz→mel conversion, `librosa.core.hz_to_mel(f, htk=False)`, as
called by `librosa.filters.mel` in `AudioConfig.__post_init__`: linear below
1000 Hz with slope `3/200`, logarithmic above with step `log(6.4)/27`. -/
noncomputable def hzToMel (f : ℝ) : ℝ :=
  if 1000 ≤ f then 1000 / (200 / 3) + Real.log (f / 1000) / (Real.log 6.4 / 27)
  else (f - 0) / (200 / 3)

/-- Slaney-style mel→Hz conversion, `librosa.core.mel_to_hz(m, htk=False)`,
the inverse branches of `hzToMel`. -/
noncomputable def melToHz (m : ℝ) : ℝ :=
  if 1000 / (200 / 3) ≤ m then 1000 * Real.exp (Real.log 6.4 / 27 * (m - 1000 / (200 / 3)))
  else 0 + 200 / 3 * m

/-- The `n_mels + 2` mel band edge frequencies used by `librosa.filters.mel`:
`mel_to_hz(linspace(hz_to_mel(fmin), hz_to_mel(fmax), n_mels + 2))`. -/
noncomputable def melBandEdges (cfg : AudioConfig) (k : ℕ) : ℝ :=
  let fmax : ℚ := cfg.mel_fmax.getD ((cfg.sample_rate : ℚ) / 2)
  let minMel := hzToMel (cfg.mel_fmin : ℝ)
  let maxMel := hzToMel (fmax : ℝ)
  melToHz (minMel + k * ((maxMel - minMel) / (cfg.mel_channels + 2 - 1)))

/-- `librosa.fft_frequencies(sr, n_fft)`: `linspace(0, sr/2, 1 + n_fft//2)`. -/
noncomputable def fftFrequencies (cfg : AudioConfig) (j : ℕ) : ℝ :=
  j * (((cfg.sample_rate : ℝ) / 2) / ((cfg.filter_length / 2 : ℕ) : ℝ))

/-- The triangular mel filterbank `self._mel_basis` built by
`AudioConfig.__post_init__` (config.py lines 44-50) through
`librosa.filters.mel(sample_rate, filter_length, n_mels=mel_channels,
fmin=mel_fmin, fmax=mel_fmax)` with the library defaults `htk=False` and
Slaney normalization: entry `(i, j)` is
`enorm_i * max(0, min(lower_i(j), upper_i(j)))`. -/
noncomputable def melFilterbank (cfg : AudioConfig) :
    Matrix (Fin cfg.mel_channels) (Fin (1 + cfg.filter_length / 2)) ℝ :=
  fun i j =>
    let lower := (fftFrequencies cfg j - melBandEdges cfg i) /
      (melBandEdges cfg (i + 1) - melBandEdges cfg i)
    let upper := (melBandEdges cfg (i + 2) - fftFrequencies cfg j) /
      (melBandEdges cfg (i + 2) - melBandEdges cfg (i + 1))
    (2 / (melBandEdges cfg (i + 2) - melBandEdges cfg i)) * max 0 (min lower upper)

/-- `np.linalg.pinv` as used on `self._mel_basis` (config.py line 52),
written with the Moore-Penrose identity `pinv M = Mᵀ (M Mᵀ)⁻¹`, which agrees
with the SVD-based numpy computation whenever `M` has full row rank (the
rank-deficient case is never relied on by a proof in this file). -/
noncomputable def pinvApprox {m n : ℕ} (M : Matrix (Fin m) (Fin n) ℝ) :
    Matrix (Fin n) (Fin m) ℝ :=
  M.transpose * (M * M.transpose)⁻¹

/-- An `AudioConfig` together with the derived caches `_mel_basis` and
`_inv_mel_basis` computed by `__post_init__`. -/
structure Engine where
  cfg : AudioConfig
  melBasis : Matrix (Fin cfg.mel_channels) (Fin (1 + cfg.filter_length / 2)) ℝ
  invMelBasis : Matrix (Fin (1 + cfg.filter_length / 2)) (Fin cfg.mel_channels) ℝ

/-- Number of frequency bins `1 + filter_length // 2` of an engine. -/
abbrev binsOf (eng : Engine) : ℕ := 1 + eng.cfg.filter_length / 2

/-- `AudioConfig.__post_init__` (config.py lines 39-52): asserts
`mel_fmax <= sample_rate // 2` (integer floor division) when `mel_fmax` is
set, then computes the mel basis and its pseudo-inverse.  A failed `assert`
raises, embedded as `none`; no other validation is performed. -/
noncomputable def postInit (cfg : AudioConfig) : Option Engine :=
  let ok : Bool := match cfg.mel_fmax with
    | none => true
    | some f => decide (f ≤ ((cfg.sample_rate / 2 : ℕ) : ℚ))
  if ok then some ⟨cfg, melFilterbank cfg, pinvApprox (melFilterbank cfg)⟩ else none

/-- `AudioConfig.mel_to_linear` (config.py lines 87-91):
`np.maximum(threshold, np.dot(self._inv_mel_basis, mel_amp))` with
`threshold = 1e-10`. -/
noncomputable def mel_to_linear (eng : Engine) {T : ℕ}
    (mel_amp : Matrix (Fin eng.cfg.mel_channels) (Fin T) ℝ) (threshold : ℝ := 1e-10) :
    Matrix (Fin (binsOf eng)) (Fin T) ℝ :=
  fun i j => max threshold ((eng.invMelBasis * mel_amp) i j)

/-- `np.pad(y, w, mode="reflect")` on a 1-D array: numpy mirrors the signal
about its end points without repeating them, extending periodically with
period `2(L-1)`; a single sample is replicated; an empty array cannot be
reflect-padded and numpy raises `ValueError` (embedded as `none`). -/
def reflectPad {α : Type} : ℕ → List α → Option (List α)
  | 0, y => some y
  | _, [] => none
  | w, [a] => some (List.replicate (w + 1 + w) a)
  | w, a :: b :: l =>
    some (List.ofFn (n := w + (a :: b :: l).length + w) fun t =>
      let L := (a :: b :: l).length
      let p : ℤ := (t : ℤ) - w
      (a :: b :: l).getD ((L - 1) - Int.natAbs (p.emod (2 * (L - 1)) - (L - 1))) a)

/-- `librosa.util.frame(y, frame_length, hop_length)` on a 1-D array: raises
(`none`) when `hop_length < 1` or the input is shorter than one frame, else
yields the `1 + (len - frame_length) // hop_length` overlapping frames. -/
def frameList {α : Type} (frame_length hop_length : ℕ) (y : List α) :
    Option (List (List α)) :=
  if hop_length < 1 then none
  else if y.length < frame_length then none
  else
    some ((List.range (1 + (y.length - frame_length) / hop_length)).map fun t =>
      (y.drop (t * hop_length)).take frame_length)

/-- The framing stage of `AudioConfig.stft` (config.py lines 103-111), i.e.
of `librosa.stft(y, n_fft=filter_length, hop_length=hop_length,
win_length=win_length, pad_mode="reflect")` with the default `center=True`:
the window must fit inside `n_fft` (`librosa.util.pad_center` raises
otherwise), the signal is reflect-padded by `n_fft // 2` on each side — a
signal shorter than `n_fft` only triggers a warning — and framed into
`n_fft`-sample frames.  The subsequent per-frame windowed Fourier transform
is the `dft` parameter of `stft` below. -/
def stftFrames {α : Type} (cfg : AudioConfig) (y : List α) : Option (List (List α)) :=
  if cfg.filter_length < cfg.win_length then none
  else (reflectPad (cfg.filter_length / 2) y).bind (frameList cfg.filter_length cfg.hop_length)

/-- `AudioConfig.stft`: the framing pipeline followed by the frame-wise
windowed discrete Fourier transform.  `dft fr` stands for the column
`rfft(hann_window * fr)` of the spectrogram; it is kept as a parameter
because its values are transcendental, while every failure and shape
behaviour of `stft` lives in `stftFrames`. -/
def stft {α β : Type} (dft : List α → β) (cfg : AudioConfig) (y : List α) :
    Option (List β) :=
  (stftFrames cfg y).map (List.map dft)

/-- The Python slice `wav[margin:-margin]` from `AudioConfig.trim_silence`
(config.py line 192).  For `margin = 0` Python evaluates `wav[0:-0] =
wav[0:0] = []`; otherwise it keeps the samples from `margin` up to
`len - margin`. -/
def pyCenterSlice {α : Type} (margin : ℕ) (wav : List α) : List α :=
  if margin = 0 then [] else (wav.drop margin).take (wav.length - 2 * margin)

/-- `librosa.feature.rms(y, frame_length, hop_length)**2` as used by
`librosa.effects.trim`: the signal is padded by `frame_length // 2` on each
side (`pad_mode="reflect"`, raising on an empty signal), framed, and each
frame is reduced to its mean squared sample (squaring the root-mean-square
cancels the square root exactly). -/
def rmsMse {α : Type} [LinearOrderedField α] (frame_length hop_length : ℕ)
    (y : List α) : Option (List α) :=
  ((reflectPad (frame_length / 2) y).bind (frameList frame_length hop_length)).map
    (List.map fun fr => (fr.map fun x => x ^ 2).sum / (frame_length : α))

/-- `np.max` over a list of non-negative values (the mean-square energies),
as `librosa.effects.trim` takes `ref=np.max` of the frame powers. -/
def listMax {α : Type} [LinearOrderedField α] (l : List α) : α :=
  l.foldr max 0

/-- `librosa.effects.trim(y, top_db, frame_length, hop_length)`, returning
only the `(start, end)` sample index pair that `AudioConfig.trim_silence`
uses.  A frame of power `S` is non-silent when
`power_to_db(S, ref=max) > -top_db`, i.e.
`10*log10(max(amin, S)) - 10*log10(max(amin, ref)) > -top_db` with
`amin = 1e-10`; this is embedded in the algebraically equivalent exponential
form `max(amin, S) * pow > max(amin, ref)` where `pow = 10 ** (top_db / 10)`
is passed by the caller.  When no frame is non-silent librosa returns the
empty index pair `(0, 0)`; it never raises on an all-silent signal. -/
def librosaTrim {α : Type} [LinearOrderedField α] (pow : α)
    (frame_length hop_length : ℕ) (y : List α) : Option (ℕ × ℕ) :=
  (rmsMse frame_length hop_length y).map fun mse =>
    let ref := listMax mse
    let nonSilent : List Bool := mse.map fun s => decide (max 1e-10 ref < max 1e-10 s * pow)
    let nonzero := (List.range mse.length).filter fun i => nonSilent.getD i false
    match nonzero with
    | [] => (0, 0)
    | i :: rest =>
      (i * hop_length, min y.length (((i :: rest).getLastD 0 + 1) * hop_length))

/-- `AudioConfig.trim_silence` (config.py lines 180-206): a margin of
`int(sample_rate * margin_sec)` samples is sliced off both ends, the span of
non-silent frames found by `librosa.effects.trim` (with
`frame_length=win_length`, `hop_length=hop_length`) is widened by
`int(sample_rate * keep_sec)` samples on each side and clamped, and the
slice `wav[trim_start:trim_end]` is returned.  `pow` is
`10 ** (trim_db / 10)` for the threshold `trim_db` (for the default
`trim_db = 60`, `pow = 10 ^ 6`). -/
def trim_silence {α : Type} [LinearOrderedField α] (cfg : AudioConfig) (wav : List α)
    (pow : α) (margin_sec : ℚ := 1 / 100) (keep_sec : ℚ := 1 / 10) : Option (List α) :=
  let margin : ℕ := (⌊(cfg.sample_rate : ℚ) * margin_sec⌋).toNat
  let wav2 := pyCenterSlice margin wav
  (librosaTrim pow cfg.win_length cfg.hop_length wav2).map fun trim_index =>
    let keep_samples : ℕ := (⌊(cfg.sample_rate : ℚ) * keep_sec⌋).toNat
    let trim_start := trim_index.1 - keep_samples
    let trim_end := min wav2.length (trim_index.2 + keep_samples)
    (wav2.drop trim_start).take (trim_end - trim_start)

/-- `10 ** (db / 10)` over the reals, connecting a decibel threshold to the
exponential form used in `librosaTrim`. -/
noncomputable def tenPowDivTen (db : ℚ) : ℝ :=
  (10 : ℝ) ^ ((db : ℝ) / 10)

/-- Complex multiplication in polar coordinates: a complex value is carried
as `(magnitude, phase)` with the phase measured in turns (full revolutions),
so `exp(2jπ·r)` is `(1, r)`; magnitudes multiply and phases add. -/
def polarMul {α : Type} [LinearOrderedField α] (a b : α × α) : α × α :=
  (a.1 * b.1, a.2 + b.2)

/-- One refinement iteration of the `for` loop in `AudioConfig.griffin_lim`
(config.py lines 125-127): re-analyze the current waveform with the forward
transform, keep only its phase (`np.exp(1j * np.angle(...))` is the unit
complex `(1, phase)`), and re-synthesize from the original magnitude
`linc` with that phase. -/
def glStep {α : Type} [LinearOrderedField α] {R C : ℕ}
    (stftF : List α → Matrix (Fin R) (Fin C) (α × α))
    (istftF : Matrix (Fin R) (Fin C) (α × α) → List α)
    (linc : Matrix (Fin R) (Fin C) (α × α)) (audio : List α) : List α :=
  istftF fun i j => polarMul (linc i j) (1, (stftF audio i j).2)

/-- `AudioConfig.griffin_lim` (config.py lines 119-129).  The forward and
inverse transforms `self.stft` / `self.istft` are the function parameters
`stftF` / `istftF` (their values are transcendental; the spectral matrices
are in polar coordinates, see `polarMul`).  `np.random.rand(*linear.shape)`
reads `R*C` draws from the global numpy random state, made explicit as the
stream `rng` consumed in row-major order, so the initial random phases are
`exp(2jπ·rng(i*C+j)) = (1, rng (i*C+j))`; `linear_complex = np.abs(linear)`
is `(|linear i j|, 0)`; then the loop body `glStep` runs exactly `num_iters`
times with no convergence check. -/
def griffin_lim {α : Type} [LinearOrderedField α] {R C : ℕ}
    (stftF : List α → Matrix (Fin R) (Fin C) (α × α))
    (istftF : Matrix (Fin R) (Fin C) (α × α) → List α)
    (linear : Matrix (Fin R) (Fin C) α) (num_iters : ℕ) (rng : ℕ → α) : List α :=
  let linc : Matrix (Fin R) (Fin C) (α × α) := fun i j => (|linear i j|, 0)
  let audio0 := istftF fun i j => polarMul (linc i j) (1, rng (i.val * C + j.val))
  (glStep stftF istftF linc)^[num_iters] audio0

/-- `AudioConfig.mel2wav` (config.py lines 71-81): denormalize when
`signal_norm` (this crashes when `clip_norm` is false, see `denormalize`),
convert decibels to amplitudes, project back to a linear spectrogram through
the pseudo-inverse, raise it to `power`, and run Griffin-Lim.  The global
numpy random state is threaded explicitly: the returned stream is the input
stream advanced past the `binsOf eng * T` draws consumed by
`np.random.rand`. -/
noncomputable def mel2wav (eng : Engine) {T : ℕ}
    (stftF : List ℝ → Matrix (Fin (binsOf eng)) (Fin T) (ℝ × ℝ))
    (istftF : Matrix (Fin (binsOf eng)) (Fin T) (ℝ × ℝ) → List ℝ)
    (mel_db : Matrix (Fin eng.cfg.mel_channels) (Fin T) ℝ)
    (num_iters : ℕ := 60) (power : ℝ := 1) (rng : ℕ → ℝ) :
    Option (List ℝ × (ℕ → ℝ)) :=
  let mdb : Option (Matrix (Fin eng.cfg.mel_channels) (Fin T) ℝ) :=
    if eng.cfg.signal_norm then
      if eng.cfg.clip_norm then some (fun i j => denormCore eng.cfg (mel_db i j)) else none
    else some mel_db
  mdb.map fun m =>
    let mel_amp : Matrix (Fin eng.cfg.mel_channels) (Fin T) ℝ :=
      fun i j => db_to_amp eng.cfg (m i j)
    let ml : Matrix (Fin (binsOf eng)) (Fin T) ℝ := mel_to_linear eng mel_amp
    let linear : Matrix (Fin (binsOf eng)) (Fin T) ℝ := fun i j => (ml i j) ^ power
    (griffin_lim stftF istftF linear num_iters rng,
      fun n => rng (n + binsOf eng * T))

/-- Dot product of two lists, truncating at the shorter one, for one entry of
`np.dot(self._mel_basis, linear)`. -/
def dotList {α : Type} [LinearOrderedField α] (a b : List α) : α :=
  ((a.zip b).map fun p => p.1 * p.2).sum

/-- `AudioConfig.wav2mel` (config.py lines 58-69): optional silence trimming
(with threshold `trim_silence_db`, whose exponential form is
`tenPowDivTen cfg.trim_silence_db`), the forward transform, magnitudes
(`magDft fr` stands for `np.abs(rfft(hann_window * fr))`, the magnitude
column of the spectrogram, kept parametric like `stft`'s `dft`), projection
onto the mel basis, decibel conversion, and normalization when
`signal_norm`. -/
noncomputable def wav2mel (eng : Engine) (magDft : List ℝ → List ℝ) (wav : List ℝ) :
    Option (List (List ℝ)) :=
  let wv : Option (List ℝ) :=
    if eng.cfg.do_trim_silence then
      trim_silence eng.cfg wav (tenPowDivTen eng.cfg.trim_silence_db)
    else some wav
  wv.bind fun w =>
    (stftFrames eng.cfg w).map fun frames =>
      let mel_amp : List (List ℝ) :=
        List.ofFn (n := eng.cfg.mel_channels) fun i =>
          frames.map fun fr => dotList (List.ofFn fun j => eng.melBasis i j) (magDft fr)
      let mel_db := mel_amp.map (List.map fun x => amp_to_db eng.cfg x)
      if eng.cfg.signal_norm then mel_db.map (List.map fun x => normalize eng.cfg x)
      else mel_db

/-- A configuration whose `mel_fmax` respects the Nyquist assertion
(`100 ≤ 200 // 2`) but whose 16-channel filterbank over 5 frequency bins has
an all-zero first row (the triangle of filter 0 spans `(0 Hz, 200/17 Hz)`
while the non-zero bins start at 25 Hz). -/
def c3cfg : AudioConfig :=
  { sample_rate := 200, filter_length := 8, mel_channels := 16,
    mel_fmin := 0, mel_fmax := some 100 }

/-- Small configuration for exercising `trim_silence` exactly:
`sample_rate = 100`, frames of 8 samples with hop 2; the default
`margin_sec = 0.01` gives a 1-sample margin and `keep_sec = 0.1` keeps 10
samples. -/
def c4cfg : AudioConfig :=
  { sample_rate := 100, filter_length := 8, hop_length := 2, win_length := 8 }

/-- Small configuration for exercising `stft` exactly: `n_fft = win = 8`,
hop 2. -/
def c5cfg : AudioConfig :=
  { filter_length := 8, hop_length := 2, win_length := 8 }

/-- Engine built over `c5cfg`. -/
noncomputable def c5eng : Engine :=
  ⟨c5cfg, melFilterbank c5cfg, pinvApprox (melFilterbank c5cfg)⟩

/-- Configuration for exercising `mel2wav`'s use of the global random state:
one mel channel, 5 frequency bins, normalization disabled so that
`denormalize` is skipped. -/
def c6cfg : AudioConfig :=
  { sample_rate := 200, filter_length := 8, mel_channels := 1,
    mel_fmin := 0, mel_fmax := some 100, signal_norm := false }

/-- Engine built over `c6cfg` (what `postInit c6cfg` returns). -/
noncomputable def c6eng : Engine :=
  ⟨c6cfg, melFilterbank c6cfg, pinvApprox (melFilterbank c6cfg)⟩

/-- A forward transform stub for runs of `mel2wav` with zero Griffin-Lim
iterations, where the forward transform is never consulted.  (`binsOf c6eng`
is by definition `5`.) -/
noncomputable def c6stftF : List ℝ → Matrix (Fin 5) (Fin 1) (ℝ × ℝ) :=
  fun _ _ _ => (0, 0)

/-- An inverse transform that renders the phase of spectrogram entry
`(1, 0)`; composed with the pipeline it exposes which random draw reached
the synthesis stage. -/
noncomputable def c6istftF : Matrix (Fin 5) (Fin 1) (ℝ × ℝ) → List ℝ :=
  fun m => [(m 1 0).2]

/-- The all-zero one-frame mel spectrogram. -/
noncomputable def c6melZero : Matrix (Fin 1) (Fin 1) ℝ := fun _ _ => 0

/-- A concrete global random stream: the first five draws (consumed by the
first `mel2wav` call) are `0`, every later draw is `1/2`. -/
noncomputable def c6s : ℕ → ℝ := fun n => if n < 5 then 0 else 1 / 2

/-- `c6s` advanced past the five draws consumed by one `mel2wav` call on a
one-frame spectrogram over `c6cfg`. -/
noncomputable def c6sShift : ℕ → ℝ := fun n => c6s (n + 5)

section Lemmas

/-- `reflectPad` succeeds on any non-empty list and adds `w` entries on each
side. -/
theorem reflectPad_some {α : Type} (w : ℕ) (y : List α) (hy : y ≠ []) :
    ∃ p, reflectPad w y = some p ∧ p.length = w + y.length + w := by
  match w, y with
  | 0, y => exact ⟨y, by simp [reflectPad], by simp⟩
  | w + 1, [] => exact absurd rfl hy
  | w + 1, [a] =>
    exact ⟨List.replicate ((w + 1) + 1 + (w + 1)) a, by simp [reflectPad], by simp⟩
  | w + 1, a :: b :: l =>
    exact ⟨_, rfl, by simp; omega⟩

/-- `frameList` succeeds whenever the hop is positive and the signal covers
one frame, and the number of frames is `1 + (len - frame_length) / hop`. -/
theorem frameList_some {α : Type} (fl hop : ℕ) (y : List α) (hhop : 1 ≤ hop)
    (hlen : fl ≤ y.length) :
    ∃ fr, frameList fl hop y = some fr ∧ fr.length = 1 + (y.length - fl) / hop := by
  unfold frameList
  rw [if_neg (Nat.not_lt.mpr hhop), if_neg (Nat.not_lt.mpr hlen)]
  exact ⟨_, rfl, by simp⟩

/-- `griffin_lim` reads the random stream only at the `R * C` indices of the
initial phase draw. -/
theorem griffin_lim_prefix {α : Type} [LinearOrderedField α] {R C : ℕ}
    (stftF : List α → Matrix (Fin R) (Fin C) (α × α))
    (istftF : Matrix (Fin R) (Fin C) (α × α) → List α)
    (linear : Matrix (Fin R) (Fin C) α) (num_iters : ℕ) (s₁ s₂ : ℕ → α)
    (h : ∀ n < R * C, s₁ n = s₂ n) :
    griffin_lim stftF istftF linear num_iters s₁ =
      griffin_lim stftF istftF linear num_iters s₂ := by
  simp only [griffin_lim]
  have h0 : (fun (i : Fin R) (j : Fin C) =>
      polarMul (|linear i j|, (0 : α)) (1, s₁ (i.val * C + j.val))) =
      (fun (i : Fin R) (j : Fin C) =>
        polarMul (|linear i j|, (0 : α)) (1, s₂ (i.val * C + j.val))) := by
    funext i j
    have hij : i.val * C + j.val < R * C := by
      have hi := i.isLt
      have hj := j.isLt
      calc i.val * C + j.val < i.val * C + C := by omega
        _ = (i.val + 1) * C := by ring
        _ ≤ R * C := Nat.mul_le_mul_right C hi
    rw [h _ hij]
  rw [h0]

/-- `List.getD` returns `c` on any list whose entries are all `c`, for the
default `c`. -/
theorem getD_eq_of_all {α : Type} (l : List α) (c : α) (h : ∀ x ∈ l, x = c) (i : ℕ) :
    l.getD i c = c := by
  induction l generalizing i with
  | nil => simp [List.getD]
  | cons a t ih =>
    cases i with
    | zero => simpa using h a (by simp)
    | succ i =>
      rw [List.getD_cons_succ]
      exact ih (fun x hx => h x (by simp [hx])) i

/-- `List.getD` on a constant list returns the constant when the index is in
range. -/
theorem getD_replicate_lt {α : Type} (n i : ℕ) (a d : α) (h : i < n) :
    (List.replicate n a).getD i d = a := by
  induction n generalizing i with
  | zero => omega
  | succ n ih =>
    rw [List.replicate_succ]
    cases i with
    | zero => rfl
    | succ i =>
      rw [List.getD_cons_succ]
      exact ih i (by omega)

/-- Reflect-padding a constant list of at least one sample yields the
constant list extended by `w` on each side. -/
theorem reflectPad_replicate {α : Type} (w k : ℕ) (c : α) (hk : 1 ≤ k) :
    reflectPad w (List.replicate k c) = some (List.replicate (w + k + w) c) := by
  cases k with
  | zero => omega
  | succ k =>
    cases k with
    | zero =>
      cases w with
      | zero => simp [reflectPad]
      | succ w => rfl
    | succ k =>
      cases w with
      | zero => simp [reflectPad]
      | succ w =>
        rw [show List.replicate (k + 1 + 1) c = c :: c :: List.replicate k c from rfl]
        rw [reflectPad]
        refine congrArg some ?_
        refine List.eq_replicate_iff.mpr ⟨by simp; omega, ?_⟩
        intro b hb
        obtain ⟨t, rfl⟩ := (List.mem_ofFn _ _).mp hb
        refine getD_eq_of_all _ c (fun x hx => ?_) _
        simp only [List.mem_cons] at hx
        rcases hx with hx | hx | hx
        · exact hx
        · exact hx
        · exact List.eq_of_mem_replicate hx
        omega

/-- Framing a constant signal yields constant frames. -/
theorem frameList_replicate {α : Type} (fl hop p : ℕ) (c : α) (hhop : 1 ≤ hop)
    (hlen : fl ≤ p) :
    frameList fl hop (List.replicate p c) =
      some (List.replicate (1 + (p - fl) / hop) (List.replicate fl c)) := by
  unfold frameList
  rw [if_neg (by omega), if_neg (by simp; omega), List.length_replicate]
  refine congrArg some ?_
  refine List.eq_replicate_iff.mpr ⟨by simp, ?_⟩
  intro b hb
  obtain ⟨t, ht, rfl⟩ := List.mem_map.mp hb
  have ht' : t < 1 + (p - fl) / hop := List.mem_range.mp ht
  have h1 : t * hop ≤ (p - fl) / hop * hop := Nat.mul_le_mul_right _ (by omega)
  have h2 : (p - fl) / hop * hop ≤ p - fl := Nat.div_mul_le_self _ _
  rw [List.drop_replicate, List.take_replicate]
  congr 1
  omega

/-- The running maximum of an all-zero energy list is zero. -/
theorem listMax_replicate_zero (n : ℕ) : listMax (List.replicate n (0 : ℚ)) = 0 := by
  induction n with
  | zero => rfl
  | succ n ih =>
    rw [List.replicate_succ]
    unfold listMax at ih ⊢
    rw [List.foldr_cons, ih]
    simp

/-- The mean-square energies of an all-zero signal are defined (the signal is
non-empty, so reflect-padding succeeds) and all zero. -/
theorem rmsMse_replicate_zero (fl hop p : ℕ) (hp : 1 ≤ p) (hhop : 1 ≤ hop)
    (_hfl : 1 ≤ fl) :
    rmsMse fl hop (List.replicate p (0 : ℚ)) =
      some (List.replicate (1 + (fl / 2 + p + fl / 2 - fl) / hop) 0) := by
  unfold rmsMse
  rw [reflectPad_replicate _ _ _ hp, Option.some_bind,
    frameList_replicate fl hop _ (0 : ℚ) hhop (by omega), Option.map_some']
  refine congrArg some ?_
  rw [List.map_replicate]
  congr 1
  simp

/-- `librosa.effects.trim` on an all-zero signal: every frame power equals
the clamped reference maximum, so with any threshold factor above `1` every
frame is non-silent and the whole signal span is returned. -/
theorem librosaTrim_zero (pow : ℚ) (fl hop p : ℕ) (hpow : 1 < pow) (hhop : 1 ≤ hop)
    (hp : 1 ≤ p) (hfl : 1 ≤ fl) :
    librosaTrim pow fl hop (List.replicate p (0 : ℚ)) = some (0, p) := by
  have hc : ((1e-10 : ℚ) ⊔ 0 < ((1e-10 : ℚ) ⊔ 0) * pow) := by
    rw [max_eq_left (by norm_num)]
    exact (lt_mul_iff_one_lt_right (by norm_num)).mpr hpow
  unfold librosaTrim
  rw [rmsMse_replicate_zero fl hop p hp hhop hfl, Option.map_some']
  refine congrArg some ?_
  simp only [listMax_replicate_zero, List.map_replicate, decide_eq_true hc,
    List.length_replicate]
  have hfilter : ∀ C : ℕ,
      List.filter (fun i => (List.replicate C true).getD i false) (List.range C) =
        List.range C := fun C =>
    List.filter_eq_self.mpr fun i hi => by
      rw [getD_replicate_lt _ _ _ _ (List.mem_range.mp hi)]
  rw [hfilter]
  have hdm := Nat.div_add_mod (fl / 2 + p + fl / 2 - fl) hop
  have hmod : (fl / 2 + p + fl / 2 - fl) % hop < hop := Nat.mod_lt _ (by omega)
  obtain ⟨r, hr⟩ : ∃ r, (fl / 2 + p + fl / 2 - fl) % hop = r := ⟨_, rfl⟩
  rw [hr] at hdm hmod
  generalize hq : (fl / 2 + p + fl / 2 - fl) / hop = q
  rw [hq] at hdm
  rw [show 1 + q = q + 1 from by omega, List.range_succ_eq_map]
  have hlast : (0 :: List.map Nat.succ (List.range q)).getLastD 0 = q := by
    rw [← List.range_succ_eq_map, List.range_succ]
    exact List.getLastD_concat _ _ _
  dsimp only
  rw [hlast]
  have h1 : (q + 1) * hop = hop * q + hop := by ring
  have hge : p ≤ (q + 1) * hop := by omega
  rw [Nat.zero_mul, min_eq_left hge]

/-- `trim_silence` on an all-zero signal with a positive margin smaller than
half the signal: no failure, the entire margin-trimmed signal is returned. -/
theorem trim_silence_all_zero (cfg : AudioConfig) (n : ℕ) (pow msec ksec : ℚ)
    (hpow : 1 < pow) (hhop : 1 ≤ cfg.hop_length) (hfl : 1 ≤ cfg.win_length)
    (hm1 : 1 ≤ (⌊(cfg.sample_rate : ℚ) * msec⌋).toNat)
    (hm2 : 2 * (⌊(cfg.sample_rate : ℚ) * msec⌋).toNat < n) :
    trim_silence cfg (List.replicate n (0 : ℚ)) pow msec ksec =
      some (List.replicate (n - 2 * (⌊(cfg.sample_rate : ℚ) * msec⌋).toNat) 0) := by
  unfold trim_silence
  generalize hg : (⌊(cfg.sample_rate : ℚ) * msec⌋).toNat = m
  rw [hg] at hm1 hm2
  generalize hk : (⌊(cfg.sample_rate : ℚ) * ksec⌋).toNat = k
  dsimp only
  have hslice : pyCenterSlice m (List.replicate n (0 : ℚ)) =
      List.replicate (n - 2 * m) 0 := by
    unfold pyCenterSlice
    rw [if_neg (by omega), List.drop_replicate, List.take_replicate,
      List.length_replicate]
    congr 1
    omega
  rw [hslice, librosaTrim_zero pow _ _ _ hpow hhop (by omega) hfl, Option.map_some']
  refine congrArg some ?_
  dsimp only
  simp only [List.length_replicate, Nat.zero_sub, List.drop_zero, List.take_replicate]
  congr 1
  omega

end Lemmas

/-- Claim C1, counterexample: with symmetric normalization, `max_norm = 1`,
`min_level_db = -100`, `ref_level_db = 20` and no clipping, a decibel value
equal to `ref_level_db` (20) normalizes to `+1`, not `-max_norm = -1`, and a
decibel value of `ref_level_db + (-min_level_db)` (120) normalizes to `3`,
not `+max_norm = 1`. -/
theorem c1_counterexample :
    normalize noClipCfg (20 : ℚ) = 1 ∧ normalize noClipCfg (120 : ℚ) = 3 ∧
      normalize noClipCfg (20 : ℚ) ≠ -1 ∧ normalize noClipCfg (120 : ℚ) ≠ 1 := by
  refine ⟨?_, ?_, ?_, ?_⟩ <;>
    · simp only [normalize, noClipCfg, npClip, Rat.cast_id]
      norm_num

/-- Claim C1, amended: for a symmetric configuration with clipping disabled
and `min_level_db ≠ 0`, `normalize` maps a decibel value of
`ref_level_db + min_level_db` to exactly `-max_norm` and a decibel value of
`ref_level_db` to exactly `+max_norm` (the spec's two endpoints are swapped
and the `+max_norm` endpoint is at `ref_level_db`, not
`ref_level_db + (-min_level_db)`). -/
theorem c1_amended (cfg : AudioConfig) (hsym : cfg.symmetric_norm = true)
    (hclip : cfg.clip_norm = false) (hmin : cfg.min_level_db ≠ 0) :
    normalize cfg ((cfg.ref_level_db : ℚ) + cfg.min_level_db) = -cfg.max_norm ∧
      normalize cfg (cfg.ref_level_db : ℚ) = cfg.max_norm := by
  have hmin' : (cfg.min_level_db : ℚ) ≠ 0 := hmin
  constructor <;>
    · simp only [normalize, hsym, hclip, if_true, if_false, Rat.cast_id]
      field_simp
      try ring

/-- Claim C1, witness for `c1_amended` at the concrete configuration of the
claim: `-80` normalizes to `-1` and `20` normalizes to `+1`. -/
theorem c1_witness :
    normalize noClipCfg ((noClipCfg.ref_level_db : ℚ) + noClipCfg.min_level_db) =
        -noClipCfg.max_norm ∧
      normalize noClipCfg (noClipCfg.ref_level_db : ℚ) = noClipCfg.max_norm :=
  c1_amended noClipCfg (by rfl) (by rfl) (by norm_num [noClipCfg])

/-- Claim C2: with clipping disabled (`clip_norm = False`) the round trip
`denormalize (normalize x)` does not return `x`: `denormalize` reads its local
`mel_denorm` before any assignment and raises `UnboundLocalError`, in the
symmetric and in the asymmetric mode alike (here at `x = -50` under the
default symmetric and asymmetric configurations). -/
theorem c2_denormalize_crashes :
    denormalize noClipCfg (normalize noClipCfg (-50 : ℚ)) = none ∧
      denormalize noClipAsymCfg (normalize noClipAsymCfg (-50 : ℚ)) = none := by
  constructor <;> rfl

/-- Claim C5, counterexample: a 3-sample signal is shorter than the
configured `win_length = 8`, yet `stft` does not fail: the signal is
reflect-padded by `n_fft // 2 = 4` on each side and framed into two
8-sample frames (shown here with the identity in place of the per-frame
Fourier transform, on which the failure behaviour does not depend).  There
is no `InsufficientSamples` error anywhere in the code. -/
theorem c5_counterexample :
    ([1, 2, 3] : List ℤ).length < c5cfg.win_length ∧
      stft (fun fr => fr) c5cfg ([1, 2, 3] : List ℤ) =
        some [[1, 2, 3, 2, 1, 2, 3, 2], [3, 2, 1, 2, 3, 2, 1, 2]] := by
  constructor
  · decide
  · decide

/-- Claim C5, amended: for every configuration with `win_length ≤ n_fft` and
a positive hop, `stft` on any non-empty signal — in particular any signal
shorter than `win_length` — succeeds (librosa only warns when
`center=True`), producing `1 + (len + 2*(n_fft//2) - n_fft) // hop` frames;
consequently `wav2mel` (with silence trimming disabled, its default) also
succeeds on such signals.  Only the empty signal fails, because numpy cannot
reflect-pad an empty array. -/
theorem c5_amended :
    (∀ (α β : Type) (dft : List α → β) (cfg : AudioConfig) (y : List α),
      y ≠ [] → cfg.win_length ≤ cfg.filter_length → 1 ≤ cfg.hop_length →
      y.length < cfg.win_length →
      ∃ fr, stft dft cfg y = some fr ∧
        fr.length = 1 + (y.length + 2 * (cfg.filter_length / 2) - cfg.filter_length) /
          cfg.hop_length) ∧
    (∀ (eng : Engine) (magDft : List ℝ → List ℝ) (w : List ℝ),
      eng.cfg.do_trim_silence = false → w ≠ [] →
      eng.cfg.win_length ≤ eng.cfg.filter_length → 1 ≤ eng.cfg.hop_length →
      w.length < eng.cfg.win_length →
      (wav2mel eng magDft w).isSome = true) := by
  have hstf : ∀ (α : Type) (cfg : AudioConfig) (y : List α), y ≠ [] →
      cfg.win_length ≤ cfg.filter_length → 1 ≤ cfg.hop_length →
      ∃ fr, stftFrames cfg y = some fr ∧
        fr.length = 1 + (y.length + 2 * (cfg.filter_length / 2) - cfg.filter_length) /
          cfg.hop_length := by
    intro α cfg y hy hwin hhop
    have hy1 : 1 ≤ y.length := List.length_pos.mpr hy
    obtain ⟨p, hp, hplen⟩ := reflectPad_some (cfg.filter_length / 2) y hy
    have hple : cfg.filter_length ≤ p.length := by omega
    obtain ⟨fr, hfr, hfrlen⟩ := frameList_some cfg.filter_length cfg.hop_length p hhop hple
    refine ⟨fr, ?_, ?_⟩
    · unfold stftFrames
      rw [if_neg (by omega), hp, Option.some_bind, hfr]
    · rw [hfrlen, hplen]
      congr 2
      omega
  constructor
  · intro α β dft cfg y hy hwin hhop _hshort
    obtain ⟨fr, hfr, hlen⟩ := hstf α cfg y hy hwin hhop
    exact ⟨fr.map dft, by simp [stft, hfr], by simp [hlen]⟩
  · intro eng magDft w htrim hw hwin hhop _hshort
    obtain ⟨fr, hfr, _⟩ := hstf ℝ eng.cfg w hw hwin hhop
    unfold wav2mel
    simp [htrim, hfr]

/-- Claim C5, witness for `c5_amended` at the concrete short signal of the
counterexample: both the framing pipeline and `wav2mel` succeed on a
3-sample signal under a `win_length = 8` configuration. -/
theorem c5_witness :
    (∃ fr, stft (fun fr => fr) c5cfg ([1, 2, 3] : List ℤ) = some fr ∧
        fr.length = 1 + (([1, 2, 3] : List ℤ).length + 2 * (c5cfg.filter_length / 2) -
          c5cfg.filter_length) / c5cfg.hop_length) ∧
      (wav2mel c5eng (fun fr => fr) [1, 2, 3]).isSome = true :=
  ⟨c5_amended.1 ℤ (List ℤ) (fun fr => fr) c5cfg [1, 2, 3] (by simp) (by decide)
      (by decide) (by decide),
    c5_amended.2 c5eng (fun fr => fr) [1, 2, 3] rfl (by simp) (by decide) (by decide)
      (by simp [c5eng, c5cfg])⟩

/-- Claim C6, counterexample: `mel2wav` exposes no seed; its randomness
comes from the implicit global numpy state (the explicit stream of the
embedding).  Two successive `mel2wav` calls on the SAME input — the second
consuming the stream state left by the first — return different waveforms
(`[0]` then `[1/2]`) under the stream `c6s`, so without externally resetting
the global state, equal inputs do not give equal outputs. -/
theorem c6_counterexample :
    (mel2wav c6eng c6stftF c6istftF c6melZero 0 1 c6s).map Prod.fst = some [(0 : ℝ)] ∧
      (mel2wav c6eng c6stftF c6istftF c6melZero 0 1 c6s).map Prod.snd = some c6sShift ∧
      (mel2wav c6eng c6stftF c6istftF c6melZero 0 1 c6sShift).map Prod.fst =
        some [(1 / 2 : ℝ)] ∧
      [(0 : ℝ)] ≠ [(1 / 2 : ℝ)] := by
  have key : ∀ s : ℕ → ℝ,
      mel2wav c6eng c6stftF c6istftF c6melZero 0 1 s =
        some ([0 + s 1], fun n => s (n + 5)) := fun s => rfl
  refine ⟨?_, ?_, ?_, by norm_num⟩
  · rw [key c6s]
    simp [c6s]
  · rw [key c6s]
    rfl
  · rw [key c6sShift]
    norm_num [c6sShift, c6s]

/-- Claim C6, amended: the phase source is the global random state, not an
injectable seed; `mel2wav`'s output waveform is determined by its inputs
together with the `binsOf eng * T` global random draws it consumes — two
calls agree exactly when the global state is reset so that both read the
same draws. -/
theorem c6_amended (eng : Engine) {T : ℕ}
    (stftF : List ℝ → Matrix (Fin (binsOf eng)) (Fin T) (ℝ × ℝ))
    (istftF : Matrix (Fin (binsOf eng)) (Fin T) (ℝ × ℝ) → List ℝ)
    (mel_db : Matrix (Fin eng.cfg.mel_channels) (Fin T) ℝ)
    (num_iters : ℕ) (power : ℝ) (s₁ s₂ : ℕ → ℝ)
    (h : ∀ n < binsOf eng * T, s₁ n = s₂ n) :
    (mel2wav eng stftF istftF mel_db num_iters power s₁).map Prod.fst =
      (mel2wav eng stftF istftF mel_db num_iters power s₂).map Prod.fst := by
  simp only [mel2wav, Option.map_map]
  congr 1
  funext m
  exact griffin_lim_prefix _ _ _ num_iters s₁ s₂ h

/-- Claim C6, witness for `c6_amended` with both calls reading the same
(zero) stream. -/
theorem c6_witness :
    (mel2wav c6eng c6stftF c6istftF c6melZero 0 1 (fun _ => (0 : ℝ))).map Prod.fst =
      (mel2wav c6eng c6stftF c6istftF c6melZero 0 1 (fun _ => (0 : ℝ))).map Prod.fst :=
  c6_amended c6eng c6stftF c6istftF c6melZero 0 1 (fun _ => 0) (fun _ => 0)
    (fun _ _ => rfl)

/-- Claim C7: for every amplitude strictly above the decibel floor `1e-5`
and every positive `spec_gain`, `db_to_amp (amp_to_db a) = a`: the floor
clamp is inactive, so `amp_to_db` and `db_to_amp` are exact inverses there. -/
theorem c7_amp_db_roundtrip (cfg : AudioConfig) (a : ℝ) (ha : (1e-5 : ℝ) < a)
    (hg : (0 : ℝ) < (cfg.spec_gain : ℝ)) :
    db_to_amp cfg (amp_to_db cfg a) = a := by
  unfold db_to_amp amp_to_db
  rw [max_eq_right ha.le, mul_div_cancel_left₀ _ hg.ne']
  exact Real.rpow_logb (by norm_num) (by norm_num) (lt_trans (by norm_num) ha)

/-- Claim C7, witness: under the default configuration (`spec_gain = 1`),
the round trip at amplitude `1 > 1e-5` returns `1`. -/
theorem c7_witness :
    (1e-5 : ℝ) < 1 ∧ (0 : ℝ) < (defaultConfig.spec_gain : ℝ) ∧
      db_to_amp defaultConfig (amp_to_db defaultConfig 1) = 1 :=
  ⟨by norm_num, by norm_num [defaultConfig],
    c7_amp_db_roundtrip defaultConfig 1 (by norm_num) (by norm_num [defaultConfig])⟩

/-- Claim C8: `griffin_lim` has no convergence check — with iteration budget
`0` it performs only the initial synthesis from the randomly drawn phases,
and with budget `n + 1` it performs the budget-`n` computation followed by
exactly one more `glStep` refinement (re-analysis of the current waveform,
phase extraction, re-synthesis with the original magnitude), for every
magnitude spectrogram, every transform pair, and every random stream. -/
theorem c8_griffin_lim_structure {α : Type} [LinearOrderedField α] {R C : ℕ}
    (stftF : List α → Matrix (Fin R) (Fin C) (α × α))
    (istftF : Matrix (Fin R) (Fin C) (α × α) → List α)
    (linear : Matrix (Fin R) (Fin C) α) (rng : ℕ → α) :
    (griffin_lim stftF istftF linear 0 rng =
      istftF fun i j => polarMul (|linear i j|, 0) (1, rng (i.val * C + j.val))) ∧
    ∀ num_iters : ℕ,
      griffin_lim stftF istftF linear (num_iters + 1) rng =
        glStep stftF istftF (fun i j => (|linear i j|, 0))
          (griffin_lim stftF istftF linear num_iters rng) := by
  constructor
  · rfl
  · intro n
    simp only [griffin_lim, Function.iterate_succ_apply']

/-- Claim C9: every entry of `mel_to_linear`'s output is clamped from below
by the floor `1e-10`, hence strictly positive, for every engine and every
mel spectrogram — even where the pseudo-inverse product is negative. -/
theorem c9_mel_to_linear_floor (eng : Engine) {T : ℕ}
    (mel_amp : Matrix (Fin eng.cfg.mel_channels) (Fin T) ℝ)
    (i : Fin (binsOf eng)) (j : Fin T) :
    (1e-10 : ℝ) ≤ mel_to_linear eng mel_amp 1e-10 i j ∧
      0 < mel_to_linear eng mel_amp 1e-10 i j := by
  have h : (1e-10 : ℝ) ≤ max 1e-10 ((eng.invMelBasis * mel_amp) i j) := le_max_left _ _
  exact ⟨h, lt_of_lt_of_le (by norm_num) h⟩

/-- Claim C3, amended: construction (`__post_init__`) succeeds exactly when
`mel_fmax` is unset or at most `sample_rate // 2`; no other validation — in
particular no all-zero-filterbank-row check — is performed. -/
theorem c3_amended (cfg : AudioConfig) :
    (postInit cfg).isSome = true ↔
      ∀ f ∈ cfg.mel_fmax, f ≤ ((cfg.sample_rate / 2 : ℕ) : ℚ) := by
  cases h : cfg.mel_fmax with
  | none => simp [postInit, h]
  | some f =>
    by_cases hf : f ≤ ((cfg.sample_rate / 2 : ℕ) : ℚ) <;> simp [postInit, h, hf]

/-- Claim C3, counterexample: the configuration `c3cfg` satisfies the
Nyquist bound (`fmax = 100 ≤ 200 / 2`), so construction succeeds — yet row 0
of the constructed mel filterbank is entirely zero.  Construction does not
fail on an all-zero filterbank row. -/
theorem c3_counterexample :
    (postInit c3cfg).isSome = true ∧
      melFilterbank c3cfg ⟨0, by decide⟩ ⟨0, by decide⟩ = 0 ∧
      melFilterbank c3cfg ⟨0, by decide⟩ ⟨1, by decide⟩ = 0 ∧
      melFilterbank c3cfg ⟨0, by decide⟩ ⟨2, by decide⟩ = 0 ∧
      melFilterbank c3cfg ⟨0, by decide⟩ ⟨3, by decide⟩ = 0 ∧
      melFilterbank c3cfg ⟨0, by decide⟩ ⟨4, by decide⟩ = 0 := by
  have hrow : ∀ j : Fin (1 + c3cfg.filter_length / 2),
      melFilterbank c3cfg ⟨0, by decide⟩ j = 0 := by
    intro j
    obtain ⟨jv, hj⟩ := j
    have hj5 : jv < 5 := by simpa [c3cfg] using hj
    have hsr : c3cfg.sample_rate = 200 := rfl
    have hfl : c3cfg.filter_length = 8 := rfl
    have e0 : melBandEdges c3cfg 0 = 0 := by
      simp only [melBandEdges, c3cfg, hzToMel, melToHz]
      norm_num
    have e1 : melBandEdges c3cfg 1 = 100 / 17 := by
      simp only [melBandEdges, c3cfg, hzToMel, melToHz]
      norm_num
    have e2 : melBandEdges c3cfg 2 = 200 / 17 := by
      simp only [melBandEdges, c3cfg, hzToMel, melToHz]
      norm_num
    dsimp only [melFilterbank, fftFrequencies]
    interval_cases jv <;> norm_num [e0, e1, e2, hsr, hfl, min_def, max_def]
  exact ⟨by simp [postInit, c3cfg], hrow _, hrow _, hrow _, hrow _, hrow _⟩

/-- Claim C4, counterexample: on an all-silence (all-zero, 20-sample) input,
`trim_silence` does not fail: because `librosa.effects.trim` measures frame
power relative to the clamped maximum, every frame of a silent signal counts
as non-silent, and the entire margin-trimmed signal (18 zero samples) is
returned.  (`10 ^ 6` is `10 ** (trim_db / 10)` for the default threshold
`trim_db = 60`.) -/
theorem c4_counterexample :
    trim_silence c4cfg (List.replicate 20 (0 : ℚ)) (10 ^ 6) =
      some (List.replicate 18 (0 : ℚ)) := by
  have hm : (⌊((c4cfg.sample_rate : ℚ)) * (1 / 100)⌋).toNat = 1 := by
    norm_num [c4cfg]
  have h := trim_silence_all_zero c4cfg 20 (10 ^ 6) (1 / 100) (1 / 10)
    (by norm_num) (by norm_num [c4cfg]) (by norm_num [c4cfg])
    (by rw [hm]) (by rw [hm]; norm_num)
  rw [hm] at h
  exact h

/-- Claim C4, amended: when the margin `int(sample_rate * margin_sec)` is at
least half the signal length — or truncates to zero, since Python's
`wav[0:-0]` is empty — the margin slice is empty, and `trim_silence` fails
because `librosa.feature.rms` cannot reflect-pad an empty array (a raised
numpy `ValueError`, not a designed error); on all-silence input, by
contrast, it does not fail (see the counterexample). -/
theorem c4_amended (cfg : AudioConfig) (wav : List ℚ) (pow msec ksec : ℚ)
    (hwin : 1 ≤ cfg.win_length / 2)
    (hm : (⌊(cfg.sample_rate : ℚ) * msec⌋).toNat = 0 ∨
      wav.length ≤ 2 * (⌊(cfg.sample_rate : ℚ) * msec⌋).toNat) :
    trim_silence cfg wav pow msec ksec = none := by
  unfold trim_silence
  generalize hg : (⌊(cfg.sample_rate : ℚ) * msec⌋).toNat = m
  rw [hg] at hm
  dsimp only
  have hslice : pyCenterSlice m wav = [] := by
    rcases hm with hm | hm
    · simp [pyCenterSlice, hm]
    · unfold pyCenterSlice
      rcases eq_or_ne m 0 with h0 | h0
      · simp [h0]
      · rw [if_neg h0]
        have h2 : wav.length - 2 * m = 0 := by omega
        simp [h2]
  rw [hslice]
  obtain ⟨w, hw⟩ : ∃ w, cfg.win_length / 2 = w + 1 := ⟨cfg.win_length / 2 - 1, by omega⟩
  have hnil : rmsMse cfg.win_length cfg.hop_length ([] : List ℚ) = none := by
    unfold rmsMse
    rw [hw]
    rfl
  unfold librosaTrim
  rw [hnil]
  rfl

/-- Claim C4, witness for `c4_amended`: with `sample_rate = 100` and
`margin_sec = 1`, the margin (100 samples) swallows a 4-sample signal and
`trim_silence` fails. -/
theorem c4_witness :
    trim_silence c4cfg (List.replicate 4 (0 : ℚ)) (10 ^ 6) 1 (1 / 10) = none :=
  c4_amended c4cfg (List.replicate 4 (0 : ℚ)) (10 ^ 6) 1 (1 / 10)
    (by norm_num [c4cfg]) (Or.inr (by norm_num [c4cfg]; decide))

end GlowTTS
